import Mathlib

/-
Verification of the guest-memory access guard in
src/crates/wasmtime/src/region.rs (BorrowChecker, Region, GuestError).

The model is a shallow embedding of the Rust source:
the guest buffer is a list of bytes (naturals below 256), the Rust i32
arguments are Lean integers cast through two-complement semantics, u32
arithmetic is natural-number arithmetic with explicit checks against 2^32
(the checked_mul / checked_add calls of the source), and usize on the
64-bit host is a natural below 2^64.  Fallible operations return
Except GuestError, and the one possible panic in the source (the
assert_eq on the alignment of T in BorrowChecker::region) is modelled by
wrapping results in Option: none is a panic, some r is a returned value.
-/

deriving instance DecidableEq for Except

namespace RegionRs

/-- Two-complement cast of a Rust i32 value to u32, as a natural number
(the source writes `ptr as u32` and `len as u32`). -/
def toU32 (x : Int) : Nat := (x % 2 ^ 32).toNat

/-- Cast of a Rust i32 value to usize on a 64-bit host (the source writes
`len as usize` in get_slice), which sign-extends to 64 bits. -/
def toUsize (x : Int) : Nat := (x % 2 ^ 64).toNat

/-- Contiguous region in linear memory: the struct Region of the source,
with fields start: u32 and len: u32. -/
structure Region where
  start : Nat
  len : Nat
deriving DecidableEq

/-- Structured guest-memory failures of the source: GuestError::PtrOverflow
and GuestError::PtrOutOfBounds(Region), plus the invalid-UTF-8 failure that
slice_str produces from std::str::from_utf8 (a distinct error type in the
source, converted to the same trap; the spec lists it as the third kind). -/
inductive GuestError where
  | PtrOverflow
  | PtrOutOfBounds (r : Region)
  | InvalidUtf8
deriving DecidableEq

/-- Rust u32::checked_mul: the product when it fits in 32 bits, none on
overflow. Arguments stand for u32 values (naturals below 2^32). -/
def checked_mul32 (a b : Nat) : Option Nat :=
  if a * b < 2 ^ 32 then some (a * b) else none

/-- Rust u32::checked_add: the sum when it fits in 32 bits, none on
overflow. -/
def checked_add32 (a b : Nat) : Option Nat :=
  if a + b < 2 ^ 32 then some (a + b) else none

/-- BorrowChecker::validate_contains (region.rs lines 79 to 89): computes
end = region.start.checked_add(region.len), returns PtrOverflow when the
checked addition fails, otherwise succeeds iff end <= self.len (the byte
length of the buffer), failing with PtrOutOfBounds carrying the region. -/
def validate_contains (bufLen : Nat) (region : Region) : Except GuestError Unit :=
  match checked_add32 region.start region.len with
  | none => .error .PtrOverflow
  | some e => if e ≤ bufLen then .ok () else .error (.PtrOutOfBounds region)

/-- The Region struct literal built at region.rs lines 64 to 69, before
validate_contains runs: start is ptr as u32, and len is
(len as u32).checked_mul(size_of T as u32), with none when the checked
multiplication overflows (the source then returns PtrOverflow).
sizeOfT stands for the u32 value of size_of::<T>(). -/
def regionUnchecked (sizeOfT : Nat) (ptr len : Int) : Option Region :=
  (checked_mul32 (toU32 len) sizeOfT).map fun byteLen =>
    { start := toU32 ptr, len := byteLen }

/-- Body of BorrowChecker::region (region.rs lines 62 to 72) after the
alignment assertion: build the Region struct literal, return PtrOverflow
when the checked multiplication fails, then run validate_contains on the
constructed value and return it when validation succeeds. -/
def regionBody (sizeOfT bufLen : Nat) (ptr len : Int) : Except GuestError Region :=
  match regionUnchecked sizeOfT ptr len with
  | none => .error .PtrOverflow
  | some r =>
    match validate_contains bufLen r with
    | .error e => .error e
    | .ok _ => .ok r

/-- The same region pipeline on already-cast unsigned values: start and
count are u32 naturals and the ordinary overflow and bounds checks are
applied to them directly.  Used to state that negative i32 arguments are
handled exactly by two-complement reinterpretation. -/
def regionNat (sizeOfT bufLen start count : Nat) : Except GuestError Region :=
  match checked_mul32 count sizeOfT with
  | none => .error .PtrOverflow
  | some byteLen =>
    let r : Region := { start := start, len := byteLen }
    match validate_contains bufLen r with
    | .error e => .error e
    | .ok _ => .ok r

/-- BorrowChecker::region (region.rs lines 62 to 72) including the
assert_eq on align_of::<T>() at line 63: when the alignment of T is not 1
the call panics (modelled as none); otherwise it returns the result of the
region body.  alignOfT stands for align_of::<T>() on the host. -/
def region (alignOfT sizeOfT bufLen : Nat) (ptr len : Int) :
    Option (Except GuestError Region) :=
  if alignOfT = 1 then some (regionBody sizeOfT bufLen ptr len) else none

/-- Bytes of element number i of a slice of elements of size sizeOfT
starting at byte offset start of the buffer: the source reads the bytes at
start + i * sizeOfT through std::slice::from_raw_parts. -/
def elemAt (buf : List Nat) (sizeOfT start i : Nat) : List Nat :=
  (buf.drop (start + i * sizeOfT)).take sizeOfT

/-- BorrowChecker::get_slice (region.rs lines 40 to 60): validate the
region, then reinterpret the bytes at the region start as elements of T.
The element count of the returned slice is `len as usize` exactly as in
the call to std::slice::from_raw_parts, which sign-extends the i32 len to
64 bits.  Each element is its sizeOfT underlying bytes. -/
def get_slice (alignOfT sizeOfT : Nat) (buf : List Nat) (ptr len : Int) :
    Option (Except GuestError (List (List Nat) × Region)) :=
  (region alignOfT sizeOfT buf.length ptr len).map fun res =>
    res.map fun r =>
      ((List.range (toUsize len)).map (elemAt buf sizeOfT r.start), r)

/-- BorrowChecker::slice (region.rs lines 29 to 38): get_slice with the
lifetime of the view promoted to the scope of the checker; the returned
value is the slice itself. -/
def slice (alignOfT sizeOfT : Nat) (buf : List Nat) (ptr len : Int) :
    Option (Except GuestError (List (List Nat))) :=
  (get_slice alignOfT sizeOfT buf ptr len).map (Except.map Prod.fst)

/-- UTF-8 continuation byte: high bits 10. -/
def contByte (b : Nat) : Bool := 0x80 ≤ b && b ≤ 0xBF

/-- Models std::str::from_utf8 validation (external standard library code):
the byte list is well-formed UTF-8 per RFC 3629, rejecting overlong forms,
surrogates and values above U+10FFFF. -/
def validUtf8 : List Nat → Bool
  | [] => true
  | b :: rest =>
    if b ≤ 0x7F then validUtf8 rest
    else if 0xC2 ≤ b && b ≤ 0xDF then
      match rest with
      | b2 :: rest2 => contByte b2 && validUtf8 rest2
      | [] => false
    else if b = 0xE0 then
      match rest with
      | b2 :: b3 :: rest3 =>
        (0xA0 ≤ b2 && b2 ≤ 0xBF) && contByte b3 && validUtf8 rest3
      | _ => false
    else if (0xE1 ≤ b && b ≤ 0xEC) || b = 0xEE || b = 0xEF then
      match rest with
      | b2 :: b3 :: rest3 => contByte b2 && contByte b3 && validUtf8 rest3
      | _ => false
    else if b = 0xED then
      match rest with
      | b2 :: b3 :: rest3 =>
        (0x80 ≤ b2 && b2 ≤ 0x9F) && contByte b3 && validUtf8 rest3
      | _ => false
    else if b = 0xF0 then
      match rest with
      | b2 :: b3 :: b4 :: rest4 =>
        (0x90 ≤ b2 && b2 ≤ 0xBF) && contByte b3 && contByte b4 && validUtf8 rest4
      | _ => false
    else if 0xF1 ≤ b && b ≤ 0xF3 then
      match rest with
      | b2 :: b3 :: b4 :: rest4 =>
        contByte b2 && contByte b3 && contByte b4 && validUtf8 rest4
      | _ => false
    else if b = 0xF4 then
      match rest with
      | b2 :: b3 :: b4 :: rest4 =>
        (0x80 ≤ b2 && b2 ≤ 0x8F) && contByte b3 && contByte b4 && validUtf8 rest4
      | _ => false
    else false

/-- BorrowChecker::slice_str (region.rs lines 74 to 77): slice::<u8>
(u8 has size 1 and alignment 1), then std::str::from_utf8 on the resulting
bytes; a well-formed result is the text viewing those same bytes, and an
ill-formed one is the invalid-encoding failure. -/
def slice_str (buf : List Nat) (ptr len : Int) :
    Option (Except GuestError (List Nat)) :=
  (slice 1 1 buf ptr len).map fun res =>
    match res with
    | .error e => .error e
    | .ok chunks =>
      let bytes := chunks.flatten
      if validUtf8 bytes then .ok bytes else .error .InvalidUtf8

/-- Little-endian byte sequence of a value, least significant byte first.
Modelled from the spec: the Le wrapper and the Endian trait live outside
src (crate::Le, crate::Endian); per the spec, Le of T stores T as its
little-endian byte sequence, has alignment 1 and the size of T. -/
def leBytes : Nat → Nat → List Nat
  | 0, _ => []
  | n + 1, v => v % 256 :: leBytes n (v / 256)

/-- Little-endian decoding of a byte sequence to the native value.
Modelled from the spec: this is Le::get of the external Endian capability,
which decodes a little-endian byte pattern to the native-order scalar. -/
def leDecode (bytes : List Nat) : Nat :=
  bytes.foldr (fun b acc => b + 256 * acc) 0

/-- BorrowChecker::load (region.rs lines 95 to 98): get_slice::<Le<T>>
(alignment 1, size of T) at the offset with count 1, then decode the single
element with Le::get.  The source indexes slice[0], which always exists
because the element count is the literal 1. -/
def load (sizeOfT : Nat) (buf : List Nat) (offset : Int) :
    Option (Except GuestError Nat) :=
  (get_slice 1 sizeOfT buf offset 1).map
    (Except.map fun p => leDecode (p.1.headD []))

/-! Helper lemmas shared by the claim theorems. -/

lemma regionBody_of_no_overflow (s bufLen : Nat) (ptr len : Int)
    (h1 : toU32 len * s < 2 ^ 32) (h2 : toU32 ptr + toU32 len * s < 2 ^ 32) :
    regionBody s bufLen ptr len
      = if toU32 ptr + toU32 len * s ≤ bufLen
        then .ok ⟨toU32 ptr, toU32 len * s⟩
        else .error (.PtrOutOfBounds ⟨toU32 ptr, toU32 len * s⟩) := by
  unfold regionBody regionUnchecked checked_mul32
  rw [if_pos h1]
  dsimp only [Option.map]
  unfold validate_contains checked_add32
  dsimp only
  rw [if_pos h2]
  simp only []
  by_cases hc : toU32 ptr + toU32 len * s ≤ bufLen
  · rw [if_pos hc]
    simp only []
    rw [if_pos hc]
  · rw [if_neg hc]
    simp only []
    rw [if_neg hc]

lemma slice_eq_match (s : Nat) (buf : List Nat) (ptr len : Int) :
    slice 1 s buf ptr len
      = some (match regionBody s buf.length ptr len with
          | .error e => .error e
          | .ok r => .ok ((List.range (toUsize len)).map (elemAt buf s r.start))) := by
  cases h : regionBody s buf.length ptr len <;>
    simp [slice, get_slice, region, h, Except.map]

lemma slice_error_iff (s : Nat) (buf : List Nat) (ptr len : Int) (e : GuestError) :
    slice 1 s buf ptr len = some (.error e)
      ↔ regionBody s buf.length ptr len = .error e := by
  rw [slice_eq_match]
  cases h : regionBody s buf.length ptr len <;> simp

lemma validate_contains_error_cases (bufLen : Nat) (r0 : Region) (e0 : GuestError)
    (hv : validate_contains bufLen r0 = .error e0) :
    e0 = .PtrOverflow
    ∨ (e0 = .PtrOutOfBounds r0 ∧ r0.start + r0.len < 2 ^ 32 ∧ bufLen < r0.start + r0.len) := by
  unfold validate_contains checked_add32 at hv
  by_cases hlt : r0.start + r0.len < 2 ^ 32
  · rw [if_pos hlt] at hv
    simp only [] at hv
    by_cases hle : r0.start + r0.len ≤ bufLen
    · rw [if_pos hle] at hv; cases hv
    · rw [if_neg hle] at hv
      injection hv with hv
      exact Or.inr ⟨hv.symm, hlt, by omega⟩
  · rw [if_neg hlt] at hv
    simp only [] at hv
    injection hv with hv
    exact Or.inl hv.symm

lemma validate_contains_ok_bounds (bufLen : Nat) (r0 : Region) (u : Unit)
    (hv : validate_contains bufLen r0 = .ok u) :
    r0.start + r0.len < 2 ^ 32 ∧ r0.start + r0.len ≤ bufLen := by
  unfold validate_contains checked_add32 at hv
  by_cases hlt : r0.start + r0.len < 2 ^ 32
  · rw [if_pos hlt] at hv
    simp only [] at hv
    by_cases hle : r0.start + r0.len ≤ bufLen
    · exact ⟨hlt, hle⟩
    · rw [if_neg hle] at hv; cases hv
  · rw [if_neg hlt] at hv
    simp only [] at hv
    cases hv

lemma regionBody_error_cases (s bufLen : Nat) (ptr len : Int) (e : GuestError)
    (h : regionBody s bufLen ptr len = .error e) :
    e = .PtrOverflow ∨ ∃ r, e = .PtrOutOfBounds r := by
  unfold regionBody at h
  split at h
  · injection h with h; exact Or.inl h.symm
  next r0 hru =>
    split at h
    next e0 hv =>
      injection h with h; subst h
      rcases validate_contains_error_cases bufLen r0 e0 hv with h1 | h1
      · exact Or.inl h1
      · exact Or.inr ⟨r0, h1.1⟩
    next u hv => cases h

lemma regionBody_error_oob (s bufLen : Nat) (ptr len : Int) (r : Region)
    (h : regionBody s bufLen ptr len = .error (.PtrOutOfBounds r)) :
    r.start + r.len < 2 ^ 32 ∧ bufLen < r.start + r.len := by
  unfold regionBody at h
  split at h
  · cases h
  next r0 hru =>
    split at h
    next e0 hv =>
      injection h with h; subst h
      rcases validate_contains_error_cases bufLen r0 (.PtrOutOfBounds r) hv with h1 | h1
      · cases h1
      · obtain ⟨h2, h3, h4⟩ := h1
        injection h2 with h2
        subst h2
        exact ⟨h3, h4⟩
    next u hv => cases h

lemma regionBody_ok_bounds (s bufLen : Nat) (ptr len : Int) (r : Region)
    (h : regionBody s bufLen ptr len = .ok r) :
    r.start + r.len < 2 ^ 32 ∧ r.start + r.len ≤ bufLen := by
  unfold regionBody at h
  split at h
  · cases h
  next r0 hru =>
    split at h
    next e0 hv => cases h
    next u hv =>
      injection h with h; subst h
      exact validate_contains_ok_bounds bufLen r0 u hv

lemma leDecode_cons (b : Nat) (t : List Nat) :
    leDecode (b :: t) = b + 256 * leDecode t := rfl

lemma leDecode_leBytes (n v : Nat) : leDecode (leBytes n v) = v % 256 ^ n := by
  induction n generalizing v with
  | zero => simp [leBytes, leDecode, Nat.mod_one]
  | succ n ih =>
    rw [leBytes, leDecode_cons, ih, pow_succ', Nat.mod_mul]

lemma regionBody_eq_regionNat (s bufLen : Nat) (ptr len : Int) :
    regionBody s bufLen ptr len = regionNat s bufLen (toU32 ptr) (toU32 len) := by
  unfold regionBody regionNat regionUnchecked
  cases hm : checked_mul32 (toU32 len) s <;> simp [Option.map]

/-! Claim theorems. -/

/-- C1 (code bug, behaviour at the failing input): on a buffer of
4294967295 bytes, slice::<u8>(0, -1) passes the u32 validation (start 0,
byte length 4294967295, within bounds) and succeeds, but the returned
slice is built with `len as usize` elements, the sign-extended 64-bit
value 18446744073709551615, not the 4294967295 elements that the
validated region describes, contradicting the SAFETY comment of
get_slice and the claim that exactly count elements are returned. -/
theorem slice_count_sign_extension_bug :
    (slice 1 1 (List.replicate 4294967295 0) 0 (-1)).map (Except.map List.length)
      = some (.ok 18446744073709551615)
    ∧ (18446744073709551615 : Nat) ≠ 4294967295 := by
  constructor
  · have hlen : (List.replicate 4294967295 (0 : Nat)).length = 4294967295 :=
      List.length_replicate ..
    have hreg : regionBody 1 4294967295 0 (-1) = .ok ⟨0, 4294967295⟩ := by decide
    have hus : toUsize (-1) = 18446744073709551615 := by decide
    rw [slice_eq_match, hlen, hreg]
    simp only [Option.map, Except.map, List.length_map, List.length_range, hus]
  · decide

/-- Good-path counterpart of the C1 property for a nonnegative count: when
the count is nonnegative (so the u32 and usize casts agree), the checked
multiplication does not overflow, and the range fits the buffer, slice
succeeds and returns exactly toU32 len elements, element i being the
sizeOfT bytes at byte offset toU32 ptr + i * sizeOfT of the buffer. -/
theorem slice_in_bounds_nonneg (s : Nat) (buf : List Nat) (ptr len : Int)
    (h0 : 0 ≤ len) (h0b : len < 2147483648)
    (h1 : toU32 len * s < 2 ^ 32)
    (h2 : toU32 ptr + toU32 len * s < 2 ^ 32)
    (h3 : toU32 ptr + toU32 len * s ≤ buf.length) :
    slice 1 s buf ptr len
      = some (.ok ((List.range (toU32 len)).map (elemAt buf s (toU32 ptr)))) := by
  have p32 : ((2 : Int) ^ 32) = 4294967296 := by norm_num
  have p64 : ((2 : Int) ^ 64) = 18446744073709551616 := by norm_num
  have hq : toUsize len = toU32 len := by
    unfold toUsize toU32
    rw [Int.emod_eq_of_lt h0 (by omega), Int.emod_eq_of_lt h0 (by omega)]
  rw [slice_eq_match, regionBody_of_no_overflow s buf.length ptr len h1 h2, if_pos h3]
  simp only []
  rw [hq]

/-- C2: when neither the checked multiplication count * sizeOfT nor the
checked addition start + byteLen overflows 32 bits but the computed end
exceeds the buffer length, slice fails with PtrOutOfBounds carrying
exactly the computed Region with start the u32 cast of the offset and len
the product. -/
theorem slice_oob_exact_region (s : Nat) (buf : List Nat) (ptr len : Int)
    (h1 : toU32 len * s < 2 ^ 32)
    (h2 : toU32 ptr + toU32 len * s < 2 ^ 32)
    (h3 : buf.length < toU32 ptr + toU32 len * s) :
    slice 1 s buf ptr len
      = some (.error (.PtrOutOfBounds ⟨toU32 ptr, toU32 len * s⟩)) := by
  rw [slice_eq_match, regionBody_of_no_overflow s buf.length ptr len h1 h2,
    if_neg (by omega)]

/-- C2 witness: slice::<u8>(2, 3) on a 4-byte buffer fails with
PtrOutOfBounds(Region start 2 len 3) since 2 + 3 = 5 > 4. -/
theorem slice_oob_exact_region_witness :
    slice 1 1 [0, 0, 0, 0] 2 3 = some (.error (.PtrOutOfBounds ⟨2, 3⟩)) := by
  have h := slice_oob_exact_region 1 [0, 0, 0, 0] 2 3 (by decide) (by decide) (by decide)
  rw [h]
  decide

/-- C3: when the checked u32 multiplication count * sizeOfT overflows,
region fails with PtrOverflow for every buffer length, so bounds
validation is never reached and the result does not depend on the
buffer. -/
theorem region_mul_overflow (s bufLen : Nat) (ptr len : Int)
    (h : 2 ^ 32 ≤ toU32 len * s) :
    region 1 s bufLen ptr len = some (.error .PtrOverflow) := by
  unfold region regionBody regionUnchecked checked_mul32
  rw [if_pos rfl, if_neg (by omega)]
  simp [Option.map]

/-- C3 witness: a count casting to 2147483648 with element size 2
multiplies to exactly 2^32 and yields PtrOverflow on a 4-byte buffer. -/
theorem region_mul_overflow_witness :
    region 1 2 4 0 (-2147483648) = some (.error .PtrOverflow) :=
  region_mul_overflow 2 4 0 (-2147483648) (by decide)

/-- C4: validate_contains computes end = start + len with checked 32-bit
addition, fails with PtrOverflow when the addition overflows, otherwise
succeeds iff end is at most the buffer length, and on a bounds failure
yields PtrOutOfBounds carrying that same Region. -/
theorem validate_contains_spec (bufLen : Nat) (r : Region) :
    (2 ^ 32 ≤ r.start + r.len → validate_contains bufLen r = .error .PtrOverflow)
    ∧ (r.start + r.len < 2 ^ 32 →
        (validate_contains bufLen r = .ok () ↔ r.start + r.len ≤ bufLen)
        ∧ (bufLen < r.start + r.len →
            validate_contains bufLen r = .error (.PtrOutOfBounds r))) := by
  refine ⟨fun h => ?_, fun h => ⟨?_, fun h2 => ?_⟩⟩
  · unfold validate_contains checked_add32
    rw [if_neg (by omega)]
  · unfold validate_contains checked_add32
    rw [if_pos h]
    simp only []
    by_cases hle : r.start + r.len ≤ bufLen
    · rw [if_pos hle]; simp [hle]
    · rw [if_neg hle]; simp [hle]
  · unfold validate_contains checked_add32
    rw [if_pos h]
    simp only []
    rw [if_neg (by omega)]

/-- C4 witness: on a 4-byte buffer, Region start 2 len 3 is rejected with
PtrOutOfBounds of that Region, and Region start 0 len 4 validates. -/
theorem validate_contains_spec_witness :
    validate_contains 4 ⟨2, 3⟩ = .error (.PtrOutOfBounds ⟨2, 3⟩)
    ∧ validate_contains 4 ⟨0, 4⟩ = .ok () := by
  constructor
  · exact ((validate_contains_spec 4 ⟨2, 3⟩).2 (by decide)).2 (by decide)
  · exact ((validate_contains_spec 4 ⟨0, 4⟩).2 (by decide)).1.mpr (by decide)

/-- C5 counterexample: slice::<u8>(i32 maximum, 2) on a 4-byte buffer
fails with PtrOutOfBounds(Region start 2147483647 len 2), not with
PtrOverflow as claimed: the checked multiplication 2 * 1 and the checked
addition 2147483647 + 2 = 2147483649 both fit in 32 bits. -/
theorem slice_i32max_cex :
    slice 1 1 [0, 0, 0, 0] 2147483647 2
      = some (.error (.PtrOutOfBounds ⟨2147483647, 2⟩))
    ∧ GuestError.PtrOutOfBounds ⟨2147483647, 2⟩ ≠ GuestError.PtrOverflow :=
  ⟨by decide, by decide⟩

/-- C5 amended: slice::<u8>(i32 maximum, 2) on every buffer of length at
most 2147483648 fails with PtrOutOfBounds carrying Region start
2147483647 len 2; no overflow occurs, so PtrOverflow is not produced. -/
theorem slice_i32max_oob (buf : List Nat) (h : buf.length ≤ 2147483648) :
    slice 1 1 buf 2147483647 2
      = some (.error (.PtrOutOfBounds ⟨2147483647, 2⟩)) := by
  have e1 : toU32 2147483647 + toU32 2 * 1 = 2147483649 := by decide
  rw [slice_eq_match,
    regionBody_of_no_overflow 1 buf.length 2147483647 2 (by decide) (by decide),
    if_neg (by omega)]
  simp only []
  decide

/-- C5 amended witness: the amended statement at a concrete 3-byte
buffer. -/
theorem slice_i32max_oob_witness :
    slice 1 1 (List.replicate 3 0) 2147483647 2
      = some (.error (.PtrOutOfBounds ⟨2147483647, 2⟩)) :=
  slice_i32max_oob (List.replicate 3 0) (by decide)

/-- C6 counterexample: the Region struct literal built at region.rs lines
64 to 69 (modelled by regionUnchecked) for ptr -1, len 1, size 1 is
Region start 4294967295 len 1, whose start + len exceeds 2^32 - 1, and it
is constructed although region then rejects it with PtrOverflow: the
start + len check happens only afterwards, inside validate_contains. -/
theorem region_before_check_cex :
    regionUnchecked 1 (-1) 1 = some ⟨4294967295, 1⟩
    ∧ (2 ^ 32 - 1 : Nat) < 4294967295 + 1
    ∧ region 1 1 100 (-1) 1 = some (.error .PtrOverflow) :=
  ⟨by decide, by decide, by decide⟩

/-- C6 amended: every Region that region returns, whether inside a
PtrOutOfBounds error or as a success value, satisfies
start + len <= 2^32 - 1, because validate_contains checked the addition;
only the transient Region built before that check can violate it. -/
theorem region_results_no_overflow (alignOfT s bufLen : Nat) (ptr len : Int) (r : Region) :
    (region alignOfT s bufLen ptr len = some (.error (.PtrOutOfBounds r))
        → r.start + r.len ≤ 2 ^ 32 - 1)
    ∧ (region alignOfT s bufLen ptr len = some (.ok r)
        → r.start + r.len ≤ 2 ^ 32 - 1) := by
  constructor <;> intro h <;> unfold region at h <;> by_cases ha : alignOfT = 1
  · rw [if_pos ha] at h
    injection h with h
    have := regionBody_error_oob s bufLen ptr len r h
    omega
  · rw [if_neg ha] at h; cases h
  · rw [if_pos ha] at h
    injection h with h
    have := regionBody_ok_bounds s bufLen ptr len r h
    omega
  · rw [if_neg ha] at h; cases h

/-- C6 amended witness: the Region inside the PtrOutOfBounds error of
region on a 4-byte buffer with ptr 2, len 3 satisfies the bound. -/
theorem region_results_no_overflow_witness :
    (Region.mk 2 3).start + (Region.mk 2 3).len ≤ 2 ^ 32 - 1 :=
  (region_results_no_overflow 1 1 4 2 3 ⟨2, 3⟩).1 (by decide)

/-- C7: slice_str propagates every slice failure unchanged (and those are
only PtrOverflow or PtrOutOfBounds, so no encoding check happens on an
out-of-range request), returns the selected bytes when they are valid
UTF-8, fails with InvalidUtf8 when the in-bounds bytes are not valid
UTF-8, and produces InvalidUtf8 exactly in that case. -/
theorem slice_str_invalid_encoding_iff (buf : List Nat) (ptr len : Int) :
    (∀ e, slice 1 1 buf ptr len = some (.error e) →
        slice_str buf ptr len = some (.error e)
        ∧ (e = .PtrOverflow ∨ ∃ r, e = .PtrOutOfBounds r))
    ∧ (∀ chunks, slice 1 1 buf ptr len = some (.ok chunks) →
        (validUtf8 chunks.flatten = true →
            slice_str buf ptr len = some (.ok chunks.flatten))
        ∧ (validUtf8 chunks.flatten = false →
            slice_str buf ptr len = some (.error .InvalidUtf8)))
    ∧ (slice_str buf ptr len = some (.error .InvalidUtf8) →
        ∃ chunks, slice 1 1 buf ptr len = some (.ok chunks)
          ∧ validUtf8 chunks.flatten = false) := by
  refine ⟨fun e he => ⟨?_, ?_⟩, fun chunks hc => ⟨fun hval => ?_, fun hval => ?_⟩, fun h => ?_⟩
  · unfold slice_str
    rw [he]
    simp [Option.map]
  · exact regionBody_error_cases 1 buf.length ptr len e ((slice_error_iff 1 buf ptr len e).mp he)
  · unfold slice_str
    rw [hc]
    simp [Option.map, hval]
  · unfold slice_str
    rw [hc]
    simp [Option.map, hval]
  · unfold slice_str at h
    cases hs : slice 1 1 buf ptr len with
    | none => rw [hs] at h; cases h
    | some res =>
      rw [hs] at h
      cases res with
      | error e =>
        rcases regionBody_error_cases 1 buf.length ptr len e
            ((slice_error_iff 1 buf ptr len e).mp hs) with h1 | ⟨r, h1⟩ <;>
          subst h1 <;> simp [Option.map] at h
      | ok chunks =>
        simp only [Option.map] at h
        by_cases hv : validUtf8 chunks.flatten
        · simp [hv] at h
        · exact ⟨chunks, rfl, by simpa using hv⟩

/-- C7 witness: the single byte 0xFF is in bounds but not valid UTF-8, so
slice_str fails with InvalidUtf8. -/
theorem slice_str_invalid_encoding_iff_witness :
    slice_str [0xFF] 0 1 = some (.error .InvalidUtf8) :=
  (((slice_str_invalid_encoding_iff [0xFF] 0 1).2.1 [[0xFF]] (by decide)).2 (by decide))

/-- C8: when the buffer holds the little-endian byte sequence of value v
at the requested offset (and the in-bounds side conditions of a size-s
read hold), load returns v; the model decodes through the little-endian
capability, so the result does not depend on any host byte order. -/
theorem load_le (s : Nat) (buf : List Nat) (offset : Int) (v : Nat)
    (hs : s < 2 ^ 32)
    (h2 : toU32 offset + s < 2 ^ 32)
    (h3 : toU32 offset + s ≤ buf.length)
    (h4 : (buf.drop (toU32 offset)).take s = leBytes s v)
    (h5 : v < 256 ^ s) :
    load s buf offset = some (.ok v) := by
  have hu1 : toU32 1 = 1 := by decide
  have hreg : regionBody s buf.length offset 1 = .ok ⟨toU32 offset, s⟩ := by
    have h1a : toU32 1 * s < 2 ^ 32 := by rw [hu1]; omega
    have h2a : toU32 offset + toU32 1 * s < 2 ^ 32 := by rw [hu1]; omega
    rw [regionBody_of_no_overflow s buf.length offset 1 h1a h2a,
      if_pos (by rw [hu1]; omega), hu1, one_mul]
  have hrange : List.range (toUsize 1) = [0] := by decide
  unfold load get_slice region
  rw [if_pos rfl]
  simp only [Option.map, hreg, Except.map, hrange, List.map, elemAt]
  rw [Nat.zero_mul, Nat.add_zero, h4]
  simp only [List.headD]
  rw [leDecode_leBytes, Nat.mod_eq_of_lt h5]

/-- C8 witness: load::<u32>(0) on the 4-byte buffer 01 00 00 00 returns
1. -/
theorem load_le_witness : load 4 [1, 0, 0, 0] 0 = some (.ok 1) :=
  load_le 4 [1, 0, 0, 0] 0 1 (by decide) (by decide) (by decide) (by decide) (by decide)

/-- C9 counterexample: u16 carries the AllBytesValid capability but has
alignment 2 on the host, so slice::<u16>(0, 0) hits the assert_eq on
align_of::<T>() in region and aborts with a panic (modelled as none)
instead of returning an error value. -/
theorem slice_u16_panics_cex :
    slice 2 2 (List.replicate 3 0) 0 0 = none := by decide

/-- C9 amended: for every type of alignment 1 (u8 for slice and slice_str,
the packed little-endian wrapper for load), slice, slice_str and load
always return a value, ok or error, and never panic. -/
theorem align_one_never_panics (s : Nat) (buf : List Nat) (ptr len offset : Int) :
    (slice 1 s buf ptr len).isSome = true
    ∧ (slice_str buf ptr len).isSome = true
    ∧ (load s buf offset).isSome = true := by
  refine ⟨?_, ?_, ?_⟩ <;> simp [slice, slice_str, load, get_slice, region]

/-- C10: negative offsets and counts are never rejected for their sign:
the region computation on i32 arguments equals the pipeline on their
two-complement u32 casts, and slice fails with some error exactly when
the ordinary overflow and bounds checks on the cast values fail with that
error. -/
theorem region_two_complement_casts (s : Nat) (buf : List Nat) (ptr len : Int) (e : GuestError) :
    regionBody s buf.length ptr len = regionNat s buf.length (toU32 ptr) (toU32 len)
    ∧ (slice 1 s buf ptr len = some (.error e)
        ↔ regionNat s buf.length (toU32 ptr) (toU32 len) = .error e) := by
  refine ⟨regionBody_eq_regionNat s buf.length ptr len, ?_⟩
  rw [slice_error_iff, regionBody_eq_regionNat]

/-- C10 witness: offset -2 becomes start 4294967294 and count -1 with a
size-1 type becomes byte length 4294967295, and the ordinary bounds
checks then reject both requests on a 2-byte buffer. -/
theorem region_two_complement_casts_witness :
    slice 1 1 [0, 0] (-2) 1 = some (.error (.PtrOutOfBounds ⟨4294967294, 1⟩))
    ∧ slice 1 1 [0, 0] 0 (-1) = some (.error (.PtrOutOfBounds ⟨0, 4294967295⟩)) := by
  constructor
  · exact (region_two_complement_casts 1 [0, 0] (-2) 1 _).2.mpr (by decide)
  · exact (region_two_complement_casts 1 [0, 0] 0 (-1) _).2.mpr (by decide)

end RegionRs
